import Mathlib

/-!
# CSV editor (`src/pages/Index.jsx`): parse, edit and export

A shallow embedding of the CSV pipeline of the `Index` component:

* `reader.onload` (lines 21-35) splits the file text into lines and fields and
  builds one row object per data line;
* the three mutations (lines 46-87) and their handlers (lines 89-103) update
  the `csvData` state;
* `handleDownload` (lines 105-109) rebuilds the CSV text.

JavaScript strings are modelled as lists of characters, row objects as
association lists of own properties over `Object.prototype`, and the
`csvData` array as a list whose entries are a row, `undefined` or a hole.

The component keeps the rows twice: in the `csvData` state, which the
mutations write, and in the query `data` (lines 40-44), which the table and
the export read. `reader.onload` sets both. After a mutation the query library
refreshes `data` on its own; that refresh is not part of the functions below,
which leave `data` as it is.
-/

namespace CsvMender

/-- A JavaScript string, as the list of its characters. -/
abbrev Str := List Char

/-- The values the program stores in a row object: `values[index]` is a string
or `undefined`, the add-row handler stores the empty string and the cell editor
stores `e.target.value`. -/
inductive Cell where
  | undefined
  | str (s : Str)
  deriving DecidableEq, Repr

/-- What a property read `row[header]` can return: an own property (a `Cell`),
or something inherited from `Object.prototype`. -/
inductive Value where
  | undefined
  | str (s : Str)
  | objectPrototype
  | native (name : Str)
  deriving DecidableEq, Repr

/-- A row object: its own properties. Every row object of the program is made
by `{}` or by an object literal, so its prototype is `Object.prototype`. The
order of the list is not observable by the program, which only reads and writes
properties by key. -/
abbrev Row := List (Str × Cell)

/-- An element of the `csvData` array: a hole of a sparse array, the value
`undefined`, or a row object. -/
inductive Entry where
  | hole
  | undefined
  | row (r : Row)
  deriving DecidableEq, Repr

/-- The `csvData` array. -/
abbrev Rows := List Entry

/-- The component state: `headers` and `csvData` (lines 10-11) and the query
`data` (lines 40-44), a value of its own that is `undefined` (`none`) until
`setQueryData` (line 34) or a fetch writes it. -/
structure State where
  headers : List Str
  csvData : Rows
  data : Option Rows
  deriving DecidableEq, Repr

/-- The property name `__proto__`. -/
def protoKey : Str := ['_', '_', 'p', 'r', 'o', 't', 'o', '_', '_']

/-- Own property lookup. -/
def getOwn : Row → Str → Option Cell
  | [], _ => none
  | (k, v) :: rest, key => if key = k then some v else getOwn rest key

/-- Whether `key in Object.keys(row)` (all own properties are enumerable). -/
def hasOwn (row : Row) (key : Str) : Bool := (getOwn row key).isSome

/-- Create or overwrite an own data property (`CreateDataProperty`): what a
computed key of an object literal and the spread `...row` do. An existing key
keeps its place, a new key goes last. -/
def define : Row → Str → Cell → Row
  | [], key, v => [(key, v)]
  | (k, w) :: rest, key, v =>
    if key = k then (k, v) :: rest else (k, w) :: define rest key v

/-- The assignment `obj[key] = v` (lines 28 and 91). An own property is
overwritten. Without one, the prototype chain decides: every property of
`Object.prototype` is a writable data property, so the assignment creates an
own property, except `__proto__`, an accessor whose setter ignores a value that
is neither an object nor `null` (a `Cell` is a string or `undefined`). -/
def assign (obj : Row) (key : Str) (v : Cell) : Row :=
  if key = protoKey ∧ hasOwn obj key = false then obj else define obj key v

/-- The own property names of `Object.prototype` whose value is a function,
with the name of the function. -/
def objectPrototypeFunctions : List (Str × Str) :=
  [ ("constructor".toList, "Object".toList),
    ("__defineGetter__".toList, "__defineGetter__".toList),
    ("__defineSetter__".toList, "__defineSetter__".toList),
    ("hasOwnProperty".toList, "hasOwnProperty".toList),
    ("__lookupGetter__".toList, "__lookupGetter__".toList),
    ("__lookupSetter__".toList, "__lookupSetter__".toList),
    ("isPrototypeOf".toList, "isPrototypeOf".toList),
    ("propertyIsEnumerable".toList, "propertyIsEnumerable".toList),
    ("toString".toList, "toString".toList),
    ("valueOf".toList, "valueOf".toList),
    ("toLocaleString".toList, "toLocaleString".toList) ]

/-- A read of `key` that reaches `Object.prototype`: the `__proto__` getter
returns the prototype of the row, which is `Object.prototype` itself. -/
def inherited (key : Str) : Value :=
  if key = protoKey then Value.objectPrototype
  else match objectPrototypeFunctions.lookup key with
    | some name => Value.native name
    | none => Value.undefined

/-- An own property value as a `Value`. -/
def Cell.toValue : Cell → Value
  | Cell.undefined => Value.undefined
  | Cell.str s => Value.str s

/-- The property read `row[key]` (lines 108 and 148). -/
def get (row : Row) (key : Str) : Value :=
  match getOwn row key with
  | some v => v.toValue
  | none => inherited key

/-- The array read `values[index]`: `undefined` past the end. -/
def elementAt (values : List Str) (index : Nat) : Cell :=
  match values[index]? with
  | some s => Cell.str s
  | none => Cell.undefined

/-- `s.split(sep)` for a one-character separator: never empty, one more piece
than there are separators. -/
def split (sep : Char) : Str → List Str
  | [] => [[]]
  | c :: cs =>
    if c = sep then [] :: split sep cs
    else match split sep cs with
      | [] => [[c]]
      | w :: ws => (c :: w) :: ws

/-- The text `Array.prototype.join` writes for an element: nothing for
`undefined`, the string itself for a string, `ToString` otherwise (a function
of the engine prints as V8 prints it). -/
def Value.joinText : Value → Str
  | Value.undefined => []
  | Value.str s => s
  | Value.objectPrototype => "[object Object]".toList
  | Value.native name => "function ".toList ++ name ++ "() \x7b [native code] \x7d".toList

/-- `xs.join(sep)`. -/
def join (sep : Str) : List Value → Str
  | [] => []
  | [x] => x.joinText
  | x :: y :: rest => x.joinText ++ sep ++ join sep (y :: rest)

/-- `headers.reduce(f, init)` with the three-argument callback `(obj, header, index)`,
from index `k` on. -/
def reduceFrom (f : Row → Str → Nat → Row) : Nat → Row → List Str → Row
  | _, obj, [] => obj
  | k, obj, header :: rest => reduceFrom f (k + 1) (f obj header k) rest

/-- `headers.reduce(f, {})`. -/
def reduce (headers : List Str) (f : Row → Str → Nat → Row) (init : Row) : Row :=
  reduceFrom f 0 init headers

/-- The row object of one data line (lines 26-30):
`headers.reduce((obj, header, index) => { obj[header] = values[index]; return obj; }, {})`. -/
def rowOf (headers : List Str) (line : Str) : Row :=
  let values := split ',' line
  reduce headers (fun obj header index => assign obj header (elementAt values index)) []

/-- The body of `reader.onload` (lines 22-34): the state after loading
`content`. The parsed rows go to `csvData` (line 33) and to the query `data`
(line 34). -/
def onload (content : Str) : State :=
  let lines := split '\n' content
  let headers := split ',' (lines.headD [])
  let data := (lines.drop 1).map (fun line => Entry.row (rowOf headers line))
  { headers := headers, csvData := data, data := some data }

/-- A row list of the specification, an ordered sequence of row records, as
a `csvData` array: every element is a row object. -/
def dense (rows : List Row) : Rows := rows.map Entry.row

/-- The array spread `[...prevData]`: the iterator reads a hole as `undefined`. -/
def spread (prevData : Rows) : Rows :=
  prevData.map (fun entry =>
    match entry with
    | Entry.hole => Entry.undefined
    | other => other)

/-- `addRowMutation.mutationFn` (lines 47-52): `[...prevData, newRow]`. -/
def addRowMutation (s : State) (newRow : Row) : State :=
  { s with csvData := spread s.csvData ++ [Entry.row newRow] }

/-- The largest array length, `2^32 - 1`; an array index is below it. -/
def maxArrayLength : Nat := 4294967295

/-- The element write `newData[index] = updatedRow` (line 64). Inside the array
the element is replaced. Past the end the array grows to `index + 1`, with
holes in between. A number that is not an array index names an ordinary
property, which no array operation of the program reads. -/
def setIndex (newData : Rows) (index : Nat) (updatedRow : Row) : Rows :=
  if index < newData.length then newData.set index (Entry.row updatedRow)
  else if index < maxArrayLength then
    newData ++ List.replicate (index - newData.length) Entry.hole ++ [Entry.row updatedRow]
  else newData

/-- `updateRowMutation.mutationFn` (lines 60-69):
`const newData = [...prevData]; newData[index] = updatedRow; return newData;`. -/
def updateRowMutation (s : State) (index : Nat) (updatedRow : Row) : State :=
  { s with csvData := setIndex (spread s.csvData) index updatedRow }

/-- `prevData.filter((_, i) => p(i))` from index `k` on: `filter` does not
visit holes and does not copy them. -/
def filterFrom (p : Nat → Bool) : Nat → Rows → Rows
  | _, [] => []
  | k, Entry.hole :: rest => filterFrom p (k + 1) rest
  | k, entry :: rest =>
    if p k then entry :: filterFrom p (k + 1) rest else filterFrom p (k + 1) rest

/-- `deleteRowMutation.mutationFn` (lines 77-82):
`prevData.filter((_, i) => i !== index)`. -/
def deleteRowMutation (s : State) (index : Nat) : State :=
  { s with csvData := filterFrom (fun i => i != index) 0 s.csvData }

/-- `handleAddRow` (lines 89-95): the new row assigns `''` to every header. -/
def handleAddRow (s : State) : State :=
  let newRow := reduce s.headers (fun obj header _ => assign obj header (Cell.str [])) []
  addRowMutation s newRow

/-- `handleUpdateRow` (lines 97-99). -/
def handleUpdateRow (s : State) (index : Nat) (updatedRow : Row) : State :=
  updateRowMutation s index updatedRow

/-- `handleDeleteRow` (lines 101-103). -/
def handleDeleteRow (s : State) (index : Nat) : State :=
  deleteRowMutation s index

/-- The row the table shows at `index` (line 143): `data.map((row, index) => ...)`
renders the rows of the query `data`, and skips a hole. -/
def displayedRow (s : State) (index : Nat) : Option Row :=
  match s.data with
  | some data =>
    match data[index]? with
    | some (Entry.row row) => some row
    | _ => none
  | none => none

/-- The `onChange` of the input of cell `(index, header)` (lines 143-149):
`handleUpdateRow(index, { ...row, [header]: e.target.value })`, where `row` is
the displayed row, the element `index` of the query `data`. `none` when the
table has no row there. -/
def onChange (s : State) (index : Nat) (header : Str) (value : Str) : Option State :=
  match displayedRow s index with
  | some row => some (handleUpdateRow s index (define row header (Cell.str value)))
  | none => none

/-- One exported data line (line 108): `headers.map((header) => row[header]).join(',')`. -/
def rowLine (headers : List Str) (row : Row) : Str :=
  join [','] (headers.map (fun header => get row header))

/-- What `...data.map((row) => ...)` (line 108) puts in the array literal for
one element of `data`. `map` keeps a hole a hole and the spread reads it as
`undefined`. On an `undefined` element the read `row[header]` throws a
`TypeError` (`none`), unless there is no header to read. -/
def lineOf (headers : List Str) : Entry → Option Value
  | Entry.hole => some Value.undefined
  | Entry.undefined => if headers = [] then some (Value.str []) else none
  | Entry.row r => some (Value.str (rowLine headers r))

/-- The lines of all elements of `data`, `none` when one of them throws. -/
def linesOf (headers : List Str) : Rows → Option (List Value)
  | [] => some []
  | entry :: rest =>
    match lineOf headers entry, linesOf headers rest with
    | some v, some vs => some (v :: vs)
    | _, _ => none

/-- `csvContent` of `handleDownload` (lines 106-109), built from `headers` and
the query `data`; `none` when building it throws (`data` is `undefined`, or an
element of `data` is). -/
def handleDownload (s : State) : Option Str :=
  match s.data with
  | some data =>
    match linesOf s.headers data with
    | some dataLines =>
      some (join ['\n'] (Value.str (join [','] (s.headers.map Value.str)) :: dataLines))
    | none => none
  | none => none

/-! ## Strings: `split` and `join` -/

theorem split_ne_nil (sep : Char) (s : Str) : split sep s ≠ [] := by
  induction s with
  | nil => simp [split]
  | cons c cs ih =>
    unfold split
    split_ifs
    · simp
    · cases h : split sep cs with
      | nil => simp
      | cons w ws => simp

theorem split_length (sep : Char) (s : Str) : (split sep s).length = s.count sep + 1 := by
  induction s with
  | nil => simp [split]
  | cons c cs ih =>
    unfold split
    by_cases hc : c = sep
    · subst hc
      simp [ih]
    · have hne : (c == sep) = false := by simpa using hc
      rw [if_neg hc, List.count_cons, hne]
      cases h : split sep cs with
      | nil => exact absurd h (split_ne_nil sep cs)
      | cons w ws =>
        rw [h] at ih
        simpa using ih

theorem join_cons_cons (sep : Str) (x y : Value) (rest : List Value) :
    join sep (x :: y :: rest) = x.joinText ++ sep ++ join sep (y :: rest) := rfl

/-- Joining the pieces of a split with the separator gives the string back. -/
theorem join_split (sep : Char) (s : Str) :
    join [sep] ((split sep s).map Value.str) = s := by
  induction s with
  | nil => simp [split, join, Value.joinText]
  | cons c cs ih =>
    unfold split
    by_cases hc : c = sep
    · subst hc
      rw [if_pos rfl]
      cases h : split c cs with
      | nil => exact absurd h (split_ne_nil c cs)
      | cons w ws =>
        rw [h] at ih
        simp only [List.map_cons, join_cons_cons, Value.joinText] at ih ⊢
        rw [ih]
        rfl
    · rw [if_neg hc]
      cases h : split sep cs with
      | nil => exact absurd h (split_ne_nil sep cs)
      | cons w ws =>
        rw [h] at ih
        cases ws with
        | nil =>
          simp only [List.map_cons, List.map_nil, join, Value.joinText] at ih ⊢
          rw [ih]
        | cons w2 ws2 =>
          simp only [List.map_cons, join_cons_cons, Value.joinText] at ih ⊢
          rw [← ih]
          simp

/-- No piece of a split contains the separator. -/
theorem not_mem_of_mem_split (sep : Char) (s : Str) :
    ∀ w ∈ split sep s, sep ∉ w := by
  induction s with
  | nil => simp [split]
  | cons c cs ih =>
    unfold split
    by_cases hc : c = sep
    · rw [if_pos hc]
      intro w hw
      rcases List.mem_cons.mp hw with h | h
      · simp [h]
      · exact ih w h
    · rw [if_neg hc]
      cases h : split sep cs with
      | nil => exact absurd h (split_ne_nil sep cs)
      | cons w ws =>
        rw [h] at ih
        intro x hx
        rcases List.mem_cons.mp hx with hx | hx
        · subst hx
          have := ih w (List.mem_cons_self _ _)
          simp only [List.mem_cons, not_or]
          exact ⟨fun e => hc e.symm, this⟩
        · exact ih x (List.mem_cons_of_mem _ hx)

/-- The first piece of a split is the text before the first separator. -/
theorem split_headD (sep : Char) (s : Str) :
    (split sep s).headD [] = s.takeWhile (fun c => c != sep) := by
  induction s with
  | nil => simp [split]
  | cons c cs ih =>
    unfold split
    by_cases hc : c = sep
    · subst hc
      simp
    · rw [if_neg hc]
      have hne : (c != sep) = true := by simpa using hc
      rw [List.takeWhile_cons, hne]
      cases h : split sep cs with
      | nil => exact absurd h (split_ne_nil sep cs)
      | cons w ws =>
        rw [h] at ih
        simp only [List.headD_cons] at ih ⊢
        simp [ih]

/-- Splitting a join of separator-free pieces gives the pieces back. -/
theorem split_join (sep : Char) (x : Str) (xs : List Str)
    (hfree : ∀ w ∈ x :: xs, sep ∉ w) :
    split sep (join [sep] ((x :: xs).map Value.str)) = x :: xs := by
  induction xs generalizing x with
  | nil =>
    have hx : sep ∉ x := hfree x (List.mem_cons_self _ _)
    simp only [List.map_cons, List.map_nil, join, Value.joinText]
    clear hfree
    induction x with
    | nil => simp [split]
    | cons c cs ih =>
      have hc : c ≠ sep := fun e => hx (by simp [e])
      have hcs : sep ∉ cs := fun e => hx (List.mem_cons_of_mem _ e)
      unfold split
      rw [if_neg hc, ih hcs]
  | cons y ys ih =>
    have hx : sep ∉ x := hfree x (List.mem_cons_self _ _)
    have hrest : ∀ w ∈ y :: ys, sep ∉ w := fun w hw => hfree w (List.mem_cons_of_mem _ hw)
    have ih2 := ih y hrest
    simp only [List.map_cons, join_cons_cons, Value.joinText] at ih2 ⊢
    clear hfree
    induction x with
    | nil =>
      simp only [List.nil_append, List.singleton_append]
      unfold split
      rw [if_pos rfl, ih2]
    | cons c cs ihx =>
      have hc : c ≠ sep := fun e => hx (by simp [e])
      have hcs : sep ∉ cs := fun e => hx (List.mem_cons_of_mem _ e)
      simp only [List.cons_append]
      unfold split
      rw [if_neg hc]
      have := ihx hcs
      simp only [List.append_assoc, List.singleton_append] at this ⊢
      rw [this]

/-! ## Row objects: reads after writes -/

theorem getOwn_define (obj : Row) (key : Str) (v : Cell) (k : Str) :
    getOwn (define obj key v) k = if k = key then some v else getOwn obj k := by
  induction obj with
  | nil => simp [define, getOwn]
  | cons kv rest ih =>
    obtain ⟨k0, w⟩ := kv
    unfold define
    by_cases h : key = k0
    · subst h
      rw [if_pos rfl]
      by_cases hk : k = key
      · simp [getOwn, hk]
      · simp [getOwn, hk]
    · rw [if_neg h]
      by_cases hk : k = k0
      · have hkk : k ≠ key := fun e => h (e ▸ hk)
        simp [getOwn, hk, Ne.symm h]
      · simp only [getOwn, if_neg hk, ih]

theorem getOwn_assign_ne (obj : Row) (key : Str) (v : Cell) (k : Str) (hk : k ≠ key) :
    getOwn (assign obj key v) k = getOwn obj k := by
  unfold assign
  split_ifs
  · rfl
  · rw [getOwn_define, if_neg hk]

theorem getOwn_assign_self (obj : Row) (key : Str) (v : Cell) (hkey : key ≠ protoKey) :
    getOwn (assign obj key v) key = some v := by
  unfold assign
  rw [if_neg (fun h => hkey h.1), getOwn_define, if_pos rfl]

/-- An assignment to `__proto__` leaves an object without that own property
as it is. -/
theorem assign_protoKey (obj : Row) (v : Cell) (hobj : getOwn obj protoKey = none) :
    assign obj protoKey v = obj := by
  unfold assign
  rw [if_pos]
  simp [hasOwn, hobj]

/-- Headers that are not `key` do not touch the own property `key`. -/
theorem getOwn_reduceFrom_not_mem (g : Nat → Cell) (key : Str) (headers : List Str)
    (hnot : key ∉ headers) (k : Nat) (obj : Row) :
    getOwn (reduceFrom (fun o header index => assign o header (g index)) k obj headers) key
      = getOwn obj key := by
  induction headers generalizing k obj with
  | nil => rfl
  | cons x rest ih =>
    have hx : key ≠ x := fun e => hnot (by simp [e])
    have hrest : key ∉ rest := fun e => hnot (List.mem_cons_of_mem _ e)
    simp only [reduceFrom]
    rw [ih hrest, getOwn_assign_ne _ _ _ _ hx]

/-- After the reduction the own property `key` holds what was assigned at the
last position at which `key` occurs in the header list. -/
theorem getOwn_reduceFrom_last (g : Nat → Cell) (key : Str) (hkey : key ≠ protoKey)
    (headers : List Str) (p : Nat) (hp : headers.get? p = some key)
    (hlast : ∀ q, p < q → headers.get? q ≠ some key) (k : Nat) (obj : Row) :
    getOwn (reduceFrom (fun o header index => assign o header (g index)) k obj headers) key
      = some (g (k + p)) := by
  induction headers generalizing p k obj with
  | nil => simp at hp
  | cons x rest ih =>
    simp only [reduceFrom]
    cases p with
    | zero =>
      have hx : x = key := by simpa using hp
      subst hx
      have hnot : x ∉ rest := by
        intro hmem
        obtain ⟨q, hq⟩ := List.mem_iff_get?.mp hmem
        exact hlast (q + 1) (Nat.succ_pos q) (by simpa using hq)
      rw [getOwn_reduceFrom_not_mem g x rest hnot, getOwn_assign_self _ _ _ hkey]
      rfl
    | succ p =>
      have hp2 : rest.get? p = some key := by simpa using hp
      have hlast2 : ∀ q, p < q → rest.get? q ≠ some key := by
        intro q hq
        have := hlast (q + 1) (Nat.succ_lt_succ hq)
        simpa using this
      rw [ih p hp2 hlast2]
      congr 2
      omega

/-- A header that occurs in the list has a last position. -/
theorem exists_last_position (key : Str) (headers : List Str) (hmem : key ∈ headers) :
    ∃ p, headers.get? p = some key ∧ ∀ q, p < q → headers.get? q ≠ some key := by
  induction headers with
  | nil => simp at hmem
  | cons x rest ih =>
    by_cases hrest : key ∈ rest
    · obtain ⟨p, hp, hlast⟩ := ih hrest
      refine ⟨p + 1, by simpa using hp, ?_⟩
      intro q hq
      cases q with
      | zero => omega
      | succ q =>
        have := hlast q (by omega)
        simpa using this
    · have hx : key = x := by
        rcases List.mem_cons.mp hmem with h | h
        · exact h
        · exact absurd h hrest
      refine ⟨0, by simp [hx], ?_⟩
      intro q hq
      cases q with
      | zero => omega
      | succ q =>
        intro hget
        exact hrest (List.mem_iff_get?.mpr ⟨q, by simpa using hget⟩)

/-- The reduction never creates an own property `__proto__`. -/
theorem getOwn_reduceFrom_protoKey (g : Nat → Cell) (headers : List Str) (k : Nat) (obj : Row)
    (hobj : getOwn obj protoKey = none) :
    getOwn (reduceFrom (fun o header index => assign o header (g index)) k obj headers) protoKey
      = none := by
  induction headers generalizing k obj with
  | nil => exact hobj
  | cons x rest ih =>
    simp only [reduceFrom]
    apply ih
    by_cases hx : x = protoKey
    · subst hx
      rw [assign_protoKey _ _ hobj]
      exact hobj
    · rw [getOwn_assign_ne _ _ _ _ (Ne.symm hx)]
      exact hobj

/-- The parser's row holds for a header other than `__proto__` the field at the
last position at which the header occurs (`undefined` when the line has no
such field). -/
theorem getOwn_rowOf_last (headers : List Str) (line : Str) (key : Str)
    (hkey : key ≠ protoKey) (p : Nat) (hp : headers.get? p = some key)
    (hlast : ∀ q, p < q → headers.get? q ≠ some key) :
    getOwn (rowOf headers line) key = some (elementAt (split ',' line) p) := by
  unfold rowOf reduce
  have := getOwn_reduceFrom_last (fun index => elementAt (split ',' line) index) key hkey
    headers p hp hlast 0 []
  simpa using this

/-! ## Export of parsed rows -/

theorem elementAt_of_lt (values : List Str) (p : Nat) (hp : p < values.length) :
    elementAt values p = Cell.str (values.get ⟨p, hp⟩) := by
  unfold elementAt
  rw [List.getElem?_eq_getElem hp]
  rfl

theorem elementAt_of_le (values : List Str) (p : Nat) (hp : values.length ≤ p) :
    elementAt values p = Cell.undefined := by
  unfold elementAt
  rw [List.getElem?_eq_none hp]

theorem elementAt_congr (values : List Str) (p q : Nat) (h : values[p]? = values[q]?) :
    elementAt values p = elementAt values q := by
  unfold elementAt
  rw [h]

/-- In a list without duplicates every position is the last position of its
element. -/
theorem nodup_last_position (headers : List Str) (hnodup : headers.Nodup) (p : Nat)
    (key : Str) (hp : headers.get? p = some key) :
    ∀ q, p < q → headers.get? q ≠ some key := by
  induction headers generalizing p with
  | nil => simp at hp
  | cons x rest ih =>
    have hx : x ∉ rest := (List.nodup_cons.mp hnodup).1
    have hrest : rest.Nodup := (List.nodup_cons.mp hnodup).2
    intro q hq
    cases q with
    | zero => omega
    | succ q =>
      cases p with
      | zero =>
        have hkey : x = key := by simpa using hp
        intro hget
        exact hx (List.mem_iff_get?.mpr ⟨q, by simpa [hkey] using hget⟩)
      | succ p =>
        have := ih hrest p (by simpa using hp) q (by omega)
        simpa using this

/-- Distinct headers: two positions with the same header name are the same
position, so their fields are the same field. -/
theorem same_fields_of_nodup (headers : List Str) (values : List Str) (hnodup : headers.Nodup) :
    ∀ p < headers.length, ∀ q < headers.length,
      headers[p]? = headers[q]? → values[p]? = values[q]? := by
  intro p hp q hq hpq
  have hkey : headers.get? p = some (headers.get ⟨p, hp⟩) := List.get?_eq_get hp
  have hkeyq : headers.get? q = some (headers.get ⟨p, hp⟩) := by
    rw [← hkey]
    simpa using hpq.symm
  have h1 := nodup_last_position headers hnodup p _ hkey
  have h2 := nodup_last_position headers hnodup q _ hkeyq
  have : p = q := by
    rcases Nat.lt_trichotomy p q with h | h | h
    · exact absurd hkeyq (h1 q h)
    · exact h
    · exact absurd hkey (h2 p h)
  rw [this]

/-- Reading the parser's row header by header gives the fields of the line,
when no header is `__proto__`, the line has one field per header and columns
of the same name hold the same field. -/
theorem map_get_rowOf (headers : List Str) (line : Str)
    (hproto : protoKey ∉ headers)
    (hlen : (split ',' line).length = headers.length)
    (hsame : ∀ p < headers.length, ∀ q < headers.length,
      headers[p]? = headers[q]? → (split ',' line)[p]? = (split ',' line)[q]?) :
    headers.map (fun header => get (rowOf headers line) header)
      = (split ',' line).map Value.str := by
  apply List.ext_get
  · simp [hlen]
  · intro p h1 h2
    have hp : p < headers.length := by simpa using h1
    have hv : p < (split ',' line).length := by simpa using h2
    have hget : headers.get? p = some (headers.get ⟨p, hp⟩) := List.get?_eq_get hp
    have hmem : headers.get ⟨p, hp⟩ ∈ headers := List.get_mem headers p hp
    have hkey : headers.get ⟨p, hp⟩ ≠ protoKey := by
      intro e
      exact hproto (e ▸ hmem)
    obtain ⟨q, hq, hlast⟩ := exists_last_position _ headers hmem
    have hql : q < headers.length := by
      by_contra hge
      rw [List.get?_eq_none.mpr (by omega)] at hq
      exact Option.noConfusion hq
    have hpq : headers[p]? = headers[q]? := by
      rw [← List.get?_eq_getElem?, ← List.get?_eq_getElem?, hget, hq]
    have hown := getOwn_rowOf_last headers line _ hkey q hq hlast
    rw [← elementAt_congr _ p q (hsame p hp q hql hpq), elementAt_of_lt _ _ hv] at hown
    simp only [List.get_eq_getElem, List.getElem_map] at hown ⊢
    simp only [get, hown, Cell.toValue]

theorem linesOf_map_row (headers : List Str) (f : Str → Row) (ls : List Str) :
    linesOf headers (ls.map (fun line => Entry.row (f line)))
      = some (ls.map (fun line => Value.str (rowLine headers (f line)))) := by
  induction ls with
  | nil => rfl
  | cons l rest ih => simp only [List.map_cons, linesOf, lineOf, ih]

theorem linesOf_rows (headers : List Str) (rows : List Row) :
    linesOf headers (rows.map Entry.row)
      = some (rows.map (fun r => Value.str (rowLine headers r))) := by
  induction rows with
  | nil => rfl
  | cons r rest ih => simp only [List.map_cons, linesOf, lineOf, ih]

/-! ## The `csvData` array -/

theorem spread_dense (rows : List Row) : spread (dense rows) = dense rows := by
  unfold spread dense
  rw [List.map_map]
  rfl

theorem length_dense (rows : List Row) : (dense rows).length = rows.length := by
  simp [dense]

/-- On an array without holes the filter of the delete mutation erases the
element at the given index. -/
theorem filterFrom_dense (rows : List Row) (k i : Nat) :
    filterFrom (fun j => j != k + i) k (dense rows) = (dense rows).eraseIdx i := by
  induction rows generalizing k i with
  | nil => rfl
  | cons r rest ih =>
    simp only [dense, List.map_cons, filterFrom] at ih ⊢
    cases i with
    | zero =>
      have h0 := ih (k + 1) 0
      have hfun : (fun j : Nat => j != k + 0) = (fun j : Nat => j != k) := by
        funext j
        simp
      have hgo : ∀ (m : Nat) (xs : List Row), k < m →
          filterFrom (fun j => j != k) m (List.map Entry.row xs) = List.map Entry.row xs := by
        intro m xs
        induction xs generalizing m with
        | nil => intro _; rfl
        | cons x xs ihx =>
          intro hm
          have hne : (m != k) = true := by
            simp
            omega
          simp only [List.map_cons, filterFrom, hne, if_true]
          rw [ihx (m + 1) (by omega)]
      simp only [Nat.add_zero, bne_self_eq_false, Bool.false_eq_true, if_false,
        List.eraseIdx_cons_zero]
      exact hgo (k + 1) rest (by omega)
    | succ i =>
      have hne : (k != k + (i + 1)) = true := by
        simp
      simp only [hne, if_true, List.eraseIdx_cons_succ]
      have := ih (k + 1) i
      have hk : k + 1 + i = k + (i + 1) := by omega
      rw [hk] at this
      rw [this]

theorem deleteRowMutation_dense (headers : List Str) (rows : List Row) (data : Option Rows)
    (i : Nat) :
    (deleteRowMutation ⟨headers, dense rows, data⟩ i).csvData = (dense rows).eraseIdx i := by
  have := filterFrom_dense rows 0 i
  simp only [Nat.zero_add] at this
  simpa [deleteRowMutation] using this

theorem updateRowMutation_dense_lt (headers : List Str) (rows : List Row) (data : Option Rows)
    (i : Nat)
    (updatedRow : Row) (hi : i < rows.length) :
    (updateRowMutation ⟨headers, dense rows, data⟩ i updatedRow).csvData
      = (dense rows).set i (Entry.row updatedRow) := by
  simp only [updateRowMutation, spread_dense, setIndex, length_dense, if_pos hi]

theorem updateRowMutation_dense_ge (headers : List Str) (rows : List Row) (data : Option Rows)
    (i : Nat)
    (updatedRow : Row) (hi : rows.length ≤ i) (hidx : i < maxArrayLength) :
    (updateRowMutation ⟨headers, dense rows, data⟩ i updatedRow).csvData
      = dense rows ++ List.replicate (i - rows.length) Entry.hole ++ [Entry.row updatedRow] := by
  simp only [updateRowMutation, spread_dense, setIndex, length_dense, if_neg (Nat.not_lt.mpr hi),
    if_pos hidx]

/-- The row made by `handleAddRow` holds the empty string for every header
other than `__proto__`. -/
theorem getOwn_newRow (headers : List Str) (key : Str) (hmem : key ∈ headers)
    (hkey : key ≠ protoKey) :
    getOwn (reduce headers (fun obj header _ => assign obj header (Cell.str [])) []) key
      = some (Cell.str []) := by
  obtain ⟨p, hp, hlast⟩ := exists_last_position key headers hmem
  exact getOwn_reduceFrom_last (fun _ => Cell.str []) key hkey headers p hp hlast 0 []

/-- The row made by `handleAddRow` has no own property `__proto__`. -/
theorem getOwn_newRow_protoKey (headers : List Str) :
    getOwn (reduce headers (fun obj header _ => assign obj header (Cell.str [])) []) protoKey
      = none :=
  getOwn_reduceFrom_protoKey (fun _ => Cell.str []) headers 0 [] rfl

/-- The parser's row has no own property `__proto__`. -/
theorem getOwn_rowOf_protoKey (headers : List Str) (line : Str) :
    getOwn (rowOf headers line) protoKey = none :=
  getOwn_reduceFrom_protoKey (fun index => elementAt (split ',' line) index) headers 0 [] rfl

theorem join_map_joinText (sep : Str) (vs : List Value) :
    join sep (vs.map (fun v => Value.str v.joinText)) = join sep vs := by
  induction vs with
  | nil => rfl
  | cons v rest ih =>
    cases rest with
    | nil => rfl
    | cons w rest2 =>
      simp only [List.map_cons, join_cons_cons, Value.joinText] at ih ⊢
      rw [ih]

/-- The fields of an exported line, when no value read from the row prints a
comma. -/
theorem split_rowLine (headers : List Str) (row : Row) (hne : headers ≠ [])
    (hfree : ∀ h ∈ headers, ',' ∉ (get row h).joinText) :
    split ',' (rowLine headers row) = headers.map (fun h => (get row h).joinText) := by
  unfold rowLine
  rw [← join_map_joinText, List.map_map]
  cases headers with
  | nil => exact absurd rfl hne
  | cons h0 rest =>
    have := split_join ',' ((get row h0).joinText) (rest.map (fun h => (get row h).joinText))
      (by
        intro w hw
        rcases List.mem_cons.mp hw with hw | hw
        · subst hw
          exact hfree h0 (List.mem_cons_self _ _)
        · obtain ⟨h, hh, rfl⟩ := List.mem_map.mp hw
          exact hfree h (List.mem_cons_of_mem _ hh))
    simpa [List.map_map, Function.comp_def] using this

/-- An update inside a row list replaces one row and keeps the others. -/
theorem handleUpdateRow_dense_lt (headers : List Str) (rows : List Row) (data : Option Rows)
    (i : Nat) (updatedRow : Row)
    (hi : i < rows.length) :
    (handleUpdateRow ⟨headers, dense rows, data⟩ i updatedRow).csvData.length = rows.length ∧
    (handleUpdateRow ⟨headers, dense rows, data⟩ i updatedRow).csvData[i]?
      = some (Entry.row updatedRow) ∧
    (∀ j, j ≠ i →
      (handleUpdateRow ⟨headers, dense rows, data⟩ i updatedRow).csvData[j]? = (dense rows)[j]?) := by
  unfold handleUpdateRow
  rw [updateRowMutation_dense_lt headers rows data i updatedRow hi]
  refine ⟨?_, ?_, ?_⟩
  · rw [List.length_set, length_dense]
  · rw [List.getElem?_set, if_pos rfl, if_pos (by rw [length_dense]; exact hi)]
  · intro j hj
    rw [List.getElem?_set, if_neg (Ne.symm hj)]

/-- The add-row action on a row list: the rows stay, in order, and one row
is appended, which maps every header other than `__proto__` to the empty
string. -/
theorem handleAddRow_dense (headers : List Str) (rows : List Row) (data : Option Rows) :
    (handleAddRow ⟨headers, dense rows, data⟩).csvData
      = dense rows ++
        [Entry.row (reduce headers (fun obj header _ => assign obj header (Cell.str [])) [])] ∧
    (handleAddRow ⟨headers, dense rows, data⟩).csvData.length = rows.length + 1 ∧
    ∀ key ∈ headers, key ≠ protoKey →
      get (reduce headers (fun obj header _ => assign obj header (Cell.str [])) []) key
        = Value.str [] := by
  refine ⟨?_, ?_, ?_⟩
  · simp only [handleAddRow, addRowMutation, spread_dense]
  · simp only [handleAddRow, addRowMutation, spread_dense, List.length_append, length_dense,
      List.length_singleton]
  · intro key hmem hkey
    simp only [get, getOwn_newRow headers key hmem hkey, Cell.toValue]

/-- No character outside the separator and the pieces is in a join. -/
theorem not_mem_join (c : Char) (sep : Str) (vs : List Value) (hsep : c ∉ sep)
    (hvs : ∀ v ∈ vs, c ∉ v.joinText) : c ∉ join sep vs := by
  induction vs with
  | nil => simp [join]
  | cons v rest ih =>
    have hv : c ∉ v.joinText := hvs v (List.mem_cons_self _ _)
    have hrest : ∀ w ∈ rest, c ∉ w.joinText := fun w hw => hvs w (List.mem_cons_of_mem _ hw)
    cases rest with
    | nil => simpa [join] using hv
    | cons w rest2 =>
      rw [join_cons_cons]
      simp only [List.mem_append, not_or]
      exact ⟨⟨hv, hsep⟩, ih hrest⟩

/-- The export of a document whose query data is a row list: the header line,
then one line per row. -/
theorem handleDownload_dense (s : State) (rows : List Row) (hdata : s.data = some (dense rows)) :
    handleDownload s
      = some (join ['\n'] (((join [','] (s.headers.map Value.str)) ::
          rows.map (fun r => rowLine s.headers r)).map Value.str)) := by
  unfold handleDownload
  rw [hdata]
  simp only [dense, linesOf_rows, List.map_cons, List.map_map, Function.comp_def]

/-- The lines of the export text, when no header name and no printed value
contains a line feed. -/
theorem split_export (headers : List Str) (rows : List Row)
    (hfeed : ∀ h ∈ headers, '\n' ∉ h ∧ ∀ r ∈ rows, '\n' ∉ (get r h).joinText) :
    split '\n' (join ['\n'] (((join [','] (headers.map Value.str)) ::
        rows.map (fun r => rowLine headers r)).map Value.str))
      = (join [','] (headers.map Value.str)) :: rows.map (fun r => rowLine headers r) := by
  apply split_join
  intro w hw
  rcases List.mem_cons.mp hw with hw | hw
  · subst hw
    apply not_mem_join _ _ _ (by decide)
    intro v hv
    obtain ⟨h, hh, rfl⟩ := List.mem_map.mp hv
    exact (hfeed h hh).1
  · obtain ⟨r, hr, rfl⟩ := List.mem_map.mp hw
    unfold rowLine
    apply not_mem_join _ _ _ (by decide)
    intro v hv
    obtain ⟨h, hh, rfl⟩ := List.mem_map.mp hv
    exact (hfeed h hh).2 r hr

/-! ## The claims -/

/-- C1 fails as stated: `"a,a\n1,2"` has two headers and a data line of two
fields, and its export is `"a,a\n2,2"`, since the second column overwrites the
first in the row object. -/
theorem C1_counterexample_duplicate_headers :
    (∀ line ∈ (split '\n' "a,a\n1,2".toList).drop 1,
      (split ',' line).length = (split ',' ((split '\n' "a,a\n1,2".toList).headD [])).length) ∧
    handleDownload (onload "a,a\n1,2".toList) = some "a,a\n2,2".toList ∧
    handleDownload (onload "a,a\n1,2".toList) ≠ some "a,a\n1,2".toList := by
  decide

/-- C1 (as amended): for every text with no header named `__proto__`, in which
every later line splits into exactly as many fields as there are headers and
holds the same field under columns of the same header name (as it does
whenever the header names are distinct), the export of the parse result is
the text. -/
theorem C1_export_after_load (text : Str)
    (hproto : protoKey ∉ split ',' ((split '\n' text).headD []))
    (hfields : ∀ line ∈ (split '\n' text).drop 1,
      (split ',' line).length = (split ',' ((split '\n' text).headD [])).length)
    (hsame : ∀ line ∈ (split '\n' text).drop 1,
      ∀ p < (split ',' ((split '\n' text).headD [])).length,
      ∀ q < (split ',' ((split '\n' text).headD [])).length,
        (split ',' ((split '\n' text).headD []))[p]? = (split ',' ((split '\n' text).headD []))[q]? →
        (split ',' line)[p]? = (split ',' line)[q]?) :
    handleDownload (onload text) = some text := by
  have hrows : ∀ line ∈ (split '\n' text).drop 1,
      Value.str (rowLine (split ',' ((split '\n' text).headD []))
        (rowOf (split ',' ((split '\n' text).headD [])) line)) = Value.str line := by
    intro line hline
    unfold rowLine
    rw [map_get_rowOf _ _ hproto (hfields line hline) (hsame line hline), join_split]
  unfold handleDownload onload
  simp only [linesOf_map_row]
  rw [List.map_congr_left hrows, join_split]
  congr 1
  conv_rhs => rw [← join_split '\n' text]
  cases h : split '\n' text with
  | nil => exact absurd h (split_ne_nil _ _)
  | cons l0 rest => simp

/-- C1 as amended, at `"a,b,a\n1,2,1\n3,4,3"`. -/
theorem C1_export_after_load_witness :
    protoKey ∉ split ',' ((split '\n' "a,b,a\n1,2,1\n3,4,3".toList).headD []) ∧
    (∀ line ∈ (split '\n' "a,b,a\n1,2,1\n3,4,3".toList).drop 1,
      (split ',' line).length
        = (split ',' ((split '\n' "a,b,a\n1,2,1\n3,4,3".toList).headD [])).length) ∧
    handleDownload (onload "a,b,a\n1,2,1\n3,4,3".toList) = some "a,b,a\n1,2,1\n3,4,3".toList :=
  ⟨by decide, by decide,
    C1_export_after_load "a,b,a\n1,2,1\n3,4,3".toList (by decide) (by decide) (by decide)⟩

/-- C2: for every text the parsed headers are the comma-separated fields of
the first line (the text before the first line feed), one more than it has
commas; there is one row per line feed of the text, and row `k` is the row
object built from line `k + 1` alone; the query data is seeded with the same
rows. `"a,b\n1,2\n3,4"` gives headers
`["a","b"]` and rows `[{a:"1",b:"2"},{a:"3",b:"4"}]`. -/
theorem C2_parse_shape_and_order (text : Str) :
    (onload text).headers = split ',' (text.takeWhile (fun c => c != '\n')) ∧
    (onload text).headers.length = (text.takeWhile (fun c => c != '\n')).count ',' + 1 ∧
    (onload text).csvData.length = text.count '\n' ∧
    (∀ k, k < text.count '\n' → ∃ line, (split '\n' text)[k + 1]? = some line ∧
      (onload text).csvData[k]? = some (Entry.row (rowOf (onload text).headers line))) ∧
    (onload text).data = some (onload text).csvData ∧
    onload "a,b\n1,2\n3,4".toList =
      { headers := ["a".toList, "b".toList],
        csvData :=
          [Entry.row [("a".toList, Cell.str "1".toList), ("b".toList, Cell.str "2".toList)],
           Entry.row [("a".toList, Cell.str "3".toList), ("b".toList, Cell.str "4".toList)]],
        data := some
          [Entry.row [("a".toList, Cell.str "1".toList), ("b".toList, Cell.str "2".toList)],
           Entry.row [("a".toList, Cell.str "3".toList), ("b".toList, Cell.str "4".toList)]] } := by
  have hh : (onload text).headers = split ',' (text.takeWhile (fun c => c != '\n')) := by
    simp only [onload, split_headD]
  have hlen : (split '\n' text).length = text.count '\n' + 1 := split_length _ _
  refine ⟨hh, ?_, ?_, ?_, rfl, by decide⟩
  · rw [hh, split_length]
  · simp only [onload, List.length_map, List.length_drop, hlen]
    omega
  · intro k hk
    have hk1 : k + 1 < (split '\n' text).length := by omega
    refine ⟨(split '\n' text)[k + 1], List.getElem?_eq_getElem hk1, ?_⟩
    simp only [onload, List.getElem?_map, List.getElem?_drop]
    rw [Nat.add_comm 1 k, List.getElem?_eq_getElem hk1]
    rfl

/-- C3 fails as stated: parsing `"a,b\n1"` gives the row `{a:"1", b:undefined}`,
in which the key `b` is present (with the value `undefined`); the row is not
`{a:"1"}`. -/
theorem C3_counterexample_key_present :
    (onload "a,b\n1".toList).csvData
      = [Entry.row [("a".toList, Cell.str "1".toList), ("b".toList, Cell.undefined)]] ∧
    hasOwn (rowOf ["a".toList, "b".toList] "1".toList) "b".toList = true ∧
    rowOf ["a".toList, "b".toList] "1".toList ≠ [("a".toList, Cell.str "1".toList)] := by
  decide

/-- C3 (as amended): for every header list and every data line with fewer
fields than headers, a trailing header without a field, other than `__proto__`,
is a key of the row object, and its value is `undefined`. -/
theorem C3_short_line_key_undefined (headers : List Str) (line : Str) (p : Nat) (header : Str)
    (hp : headers[p]? = some header) (hshort : (split ',' line).length ≤ p)
    (hproto : header ≠ protoKey) :
    hasOwn (rowOf headers line) header = true ∧
    getOwn (rowOf headers line) header = some Cell.undefined ∧
    get (rowOf headers line) header = Value.undefined := by
  have hmem : header ∈ headers := List.mem_iff_get?.mpr ⟨p, by simpa using hp⟩
  obtain ⟨q, hq, hlast⟩ := exists_last_position header headers hmem
  have hpq : p ≤ q := by
    by_contra hlt
    exact hlast p (by omega) (by simpa using hp)
  have hown := getOwn_rowOf_last headers line header hproto q hq hlast
  rw [elementAt_of_le _ _ (by omega)] at hown
  refine ⟨?_, hown, ?_⟩
  · simp [hasOwn, hown]
  · simp [get, hown, Cell.toValue]

/-- C3 as amended, at the headers `a,b` and the line `1`. -/
theorem C3_short_line_key_undefined_witness :
    ["a".toList, "b".toList][1]? = some "b".toList ∧
    (split ',' "1".toList).length ≤ 1 ∧
    "b".toList ≠ protoKey ∧
    hasOwn (rowOf ["a".toList, "b".toList] "1".toList) "b".toList = true ∧
    getOwn (rowOf ["a".toList, "b".toList] "1".toList) "b".toList = some Cell.undefined ∧
    get (rowOf ["a".toList, "b".toList] "1".toList) "b".toList = Value.undefined :=
  ⟨by decide, by decide, by decide,
    C3_short_line_key_undefined ["a".toList, "b".toList] "1".toList 1 "b".toList
      (by decide) (by decide) (by decide)⟩

/-- C4: deleting row `i` of a row list of length `n`, `i < n`, gives a list
of length `n - 1` that has at every `j < i` the row that was at `j` and at
`j - 1` the row that was at `j`, for every `j > i`; the headers stay. -/
theorem C4_delete_row (headers : List Str) (rows : List Row) (data : Option Rows) (i : Nat)
    (hi : i < rows.length) :
    (deleteRowMutation ⟨headers, dense rows, data⟩ i).csvData.length = rows.length - 1 ∧
    (∀ j, j < i →
      (deleteRowMutation ⟨headers, dense rows, data⟩ i).csvData[j]? = (dense rows)[j]?) ∧
    (∀ j, i < j → j < rows.length →
      (deleteRowMutation ⟨headers, dense rows, data⟩ i).csvData[j - 1]? = (dense rows)[j]?) ∧
    (deleteRowMutation ⟨headers, dense rows, data⟩ i).headers = headers := by
  rw [deleteRowMutation_dense]
  refine ⟨?_, ?_, ?_, rfl⟩
  · rw [List.length_eraseIdx, length_dense, if_pos hi]
  · intro j hj
    exact List.getElem?_eraseIdx_of_lt _ _ _ hj
  · intro j hj _
    rw [List.getElem?_eraseIdx_of_ge _ _ _ (by omega)]
    congr 1
    omega

/-- C4, deleting row 1 of three rows. -/
theorem C4_delete_row_witness :
    1 < [[("a".toList, Cell.str "1".toList)], [("a".toList, Cell.str "2".toList)],
      [("a".toList, Cell.str "3".toList)]].length ∧
    (deleteRowMutation ⟨["a".toList], dense [[("a".toList, Cell.str "1".toList)],
      [("a".toList, Cell.str "2".toList)], [("a".toList, Cell.str "3".toList)]],
      some (dense [[("a".toList, Cell.str "1".toList)],
        [("a".toList, Cell.str "2".toList)],
        [("a".toList, Cell.str "3".toList)]])⟩ 1).csvData
      = dense [[("a".toList, Cell.str "1".toList)], [("a".toList, Cell.str "3".toList)]] ∧
    (deleteRowMutation ⟨["a".toList], dense [[("a".toList, Cell.str "1".toList)],
      [("a".toList, Cell.str "2".toList)], [("a".toList, Cell.str "3".toList)]],
      some (dense [[("a".toList, Cell.str "1".toList)],
        [("a".toList, Cell.str "2".toList)],
        [("a".toList, Cell.str "3".toList)]])⟩ 1).csvData.length
      = [[("a".toList, Cell.str "1".toList)], [("a".toList, Cell.str "2".toList)],
        [("a".toList, Cell.str "3".toList)]].length - 1 :=
  ⟨by decide, by decide,
    (C4_delete_row ["a".toList] [[("a".toList, Cell.str "1".toList)],
      [("a".toList, Cell.str "2".toList)], [("a".toList, Cell.str "3".toList)]]
      (some (dense [[("a".toList, Cell.str "1".toList)],
        [("a".toList, Cell.str "2".toList)],
        [("a".toList, Cell.str "3".toList)]])) 1
      (by decide)).1⟩

/-- C5: updating row `i` of a row list of length `n`, `i < n`, gives a list of
length `n` that has the replacement row at `i` and at every other index the
row that was there; the headers stay. -/
theorem C5_update_row_frame (headers : List Str) (rows : List Row) (data : Option Rows)
    (i : Nat) (updatedRow : Row)
    (hi : i < rows.length) :
    (updateRowMutation ⟨headers, dense rows, data⟩ i updatedRow).csvData.length = rows.length ∧
    (updateRowMutation ⟨headers, dense rows, data⟩ i updatedRow).csvData[i]?
      = some (Entry.row updatedRow) ∧
    (∀ j, j ≠ i →
      (updateRowMutation ⟨headers, dense rows, data⟩ i updatedRow).csvData[j]? = (dense rows)[j]?) ∧
    (updateRowMutation ⟨headers, dense rows, data⟩ i updatedRow).headers = headers := by
  rw [updateRowMutation_dense_lt headers rows data i updatedRow hi]
  refine ⟨?_, ?_, ?_, rfl⟩
  · rw [List.length_set, length_dense]
  · rw [List.getElem?_set, if_pos rfl, if_pos (by rw [length_dense]; exact hi)]
  · intro j hj
    rw [List.getElem?_set, if_neg (Ne.symm hj)]

/-- C5, updating row 0 of two rows. -/
theorem C5_update_row_frame_witness :
    0 < [[("a".toList, Cell.str "1".toList)], [("a".toList, Cell.str "2".toList)]].length ∧
    (updateRowMutation ⟨["a".toList], dense [[("a".toList, Cell.str "1".toList)],
      [("a".toList, Cell.str "2".toList)]],
      some (dense [[("a".toList, Cell.str "1".toList)],
        [("a".toList, Cell.str "2".toList)]])⟩ 0 [("a".toList, Cell.str "9".toList)]).csvData
      = dense [[("a".toList, Cell.str "9".toList)], [("a".toList, Cell.str "2".toList)]] ∧
    (updateRowMutation ⟨["a".toList], dense [[("a".toList, Cell.str "1".toList)],
      [("a".toList, Cell.str "2".toList)]],
      some (dense [[("a".toList, Cell.str "1".toList)],
        [("a".toList, Cell.str "2".toList)]])⟩ 0 [("a".toList, Cell.str "9".toList)]).csvData[0]?
      = some (Entry.row [("a".toList, Cell.str "9".toList)]) :=
  ⟨by decide, by decide,
    (C5_update_row_frame ["a".toList] [[("a".toList, Cell.str "1".toList)],
      [("a".toList, Cell.str "2".toList)]]
      (some (dense [[("a".toList, Cell.str "1".toList)],
        [("a".toList, Cell.str "2".toList)]])) 0 [("a".toList, Cell.str "9".toList)]
      (by decide)).2.1⟩

/-- C6 fails on the code for a header named `__proto__`: after loading
`"__proto__\n1"` the add-row action appends a row object without any key, since
the assignment `obj["__proto__"] = ''` creates no property, and the row maps
the header `__proto__` to `Object.prototype`, not to the empty string. -/
theorem C6_add_row_proto_header :
    (onload "__proto__\n1".toList).headers = ["__proto__".toList] ∧
    (handleAddRow (onload "__proto__\n1".toList)).csvData = [Entry.row [], Entry.row []] ∧
    get [] "__proto__".toList = Value.objectPrototype ∧
    get [] "__proto__".toList ≠ Value.str [] := by
  decide

/-- C7 fails as stated: the cell editor spreads the displayed row, an element
of the query `data`, not the row of `csvData`. Load `"__proto__,a\n1,2"`: row 0
is `{a:"2"}`. Typing `x` in cell `(0, __proto__)` stores `{a:"2", __proto__:"x"}`
(the computed key creates the property) while the displayed row still is
`{a:"2"}`: the query library copies a row key by key with assignments, which
leave out `__proto__`. Typing `7` in cell `(0, a)` then stores `{a:"7"}`: the
key `__proto__` of the old row 0 does not have the value it had. -/
theorem C7_counterexample_displayed_row :
    onChange (onload "__proto__,a\n1,2".toList) 0 "__proto__".toList "x".toList
      = some
        { headers := ["__proto__".toList, "a".toList],
          csvData :=
            [Entry.row [("a".toList, Cell.str "2".toList),
              ("__proto__".toList, Cell.str "x".toList)]],
          data := some [Entry.row [("a".toList, Cell.str "2".toList)]] } ∧
    onChange
        { headers := ["__proto__".toList, "a".toList],
          csvData :=
            [Entry.row [("a".toList, Cell.str "2".toList),
              ("__proto__".toList, Cell.str "x".toList)]],
          data := some [Entry.row [("a".toList, Cell.str "2".toList)]] }
        0 "a".toList "7".toList
      = some
        { headers := ["__proto__".toList, "a".toList],
          csvData := [Entry.row [("a".toList, Cell.str "7".toList)]],
          data := some [Entry.row [("a".toList, Cell.str "2".toList)]] } ∧
    get [("a".toList, Cell.str "2".toList), ("__proto__".toList, Cell.str "x".toList)]
      "__proto__".toList = Value.str "x".toList ∧
    get [("a".toList, Cell.str "7".toList)] "__proto__".toList = Value.objectPrototype ∧
    "__proto__".toList ≠ "a".toList := by
  decide

/-- C7 (as amended): editing cell `(i, header)` to `value`, at an in-range
index `i` of a row list where the table displays `row`, puts at `i` a copy of
the displayed row with only `header` changed: it maps `header` to `value` and
has at every other key what the displayed row has there (own property and
value read); the length, every other row and the headers are unchanged. -/
theorem C7_cell_edit (headers : List Str) (rows : List Row) (data : Option Rows) (i : Nat)
    (row : Row) (header value : Str) (hi : i < rows.length)
    (hdisp : displayedRow ⟨headers, dense rows, data⟩ i = some row) :
    ∃ s, onChange ⟨headers, dense rows, data⟩ i header value = some s ∧
      s.csvData[i]? = some (Entry.row (define row header (Cell.str value))) ∧
      get (define row header (Cell.str value)) header = Value.str value ∧
      (∀ key, key ≠ header →
        getOwn (define row header (Cell.str value)) key = getOwn row key ∧
        get (define row header (Cell.str value)) key = get row key) ∧
      s.csvData.length = rows.length ∧
      (∀ j, j ≠ i → s.csvData[j]? = (dense rows)[j]?) ∧
      s.headers = headers := by
  have hupd := handleUpdateRow_dense_lt headers rows data i (define row header (Cell.str value)) hi
  refine ⟨handleUpdateRow ⟨headers, dense rows, data⟩ i (define row header (Cell.str value)),
    ?_, hupd.2.1, ?_, ?_, hupd.1, hupd.2.2, rfl⟩
  · simp only [onChange, hdisp]
  · have hown : getOwn (define row header (Cell.str value)) header = some (Cell.str value) := by
      rw [getOwn_define, if_pos rfl]
    simp only [get, hown, Cell.toValue]
  · intro key hkey
    have hown : getOwn (define row header (Cell.str value)) key = getOwn row key := by
      rw [getOwn_define, if_neg hkey]
    exact ⟨hown, by simp only [get, hown]⟩

/-- C7 as amended, editing cell `(0, b)` of the two rows `{a:"1", b:"2"}` and
`{a:"3", b:"4"}` to `x`, the table displaying the same two rows. -/
theorem C7_cell_edit_witness :
    0 < [[("a".toList, Cell.str "1".toList), ("b".toList, Cell.str "2".toList)],
      [("a".toList, Cell.str "3".toList), ("b".toList, Cell.str "4".toList)]].length ∧
    displayedRow ⟨["a".toList, "b".toList],
      dense [[("a".toList, Cell.str "1".toList), ("b".toList, Cell.str "2".toList)],
        [("a".toList, Cell.str "3".toList), ("b".toList, Cell.str "4".toList)]],
      some (dense [[("a".toList, Cell.str "1".toList), ("b".toList, Cell.str "2".toList)],
        [("a".toList, Cell.str "3".toList), ("b".toList, Cell.str "4".toList)]])⟩ 0
      = some [("a".toList, Cell.str "1".toList), ("b".toList, Cell.str "2".toList)] ∧
    (onChange ⟨["a".toList, "b".toList],
      dense [[("a".toList, Cell.str "1".toList), ("b".toList, Cell.str "2".toList)],
        [("a".toList, Cell.str "3".toList), ("b".toList, Cell.str "4".toList)]],
      some (dense [[("a".toList, Cell.str "1".toList), ("b".toList, Cell.str "2".toList)],
        [("a".toList, Cell.str "3".toList), ("b".toList, Cell.str "4".toList)]])⟩ 0
      "b".toList "x".toList).map State.csvData
      = some (dense [[("a".toList, Cell.str "1".toList), ("b".toList, Cell.str "x".toList)],
        [("a".toList, Cell.str "3".toList), ("b".toList, Cell.str "4".toList)]]) ∧
    get (define [("a".toList, Cell.str "1".toList), ("b".toList, Cell.str "2".toList)]
      "b".toList (Cell.str "x".toList)) "b".toList = Value.str "x".toList :=
  ⟨by decide, by decide, by decide,
    (C7_cell_edit ["a".toList, "b".toList]
      [[("a".toList, Cell.str "1".toList), ("b".toList, Cell.str "2".toList)],
        [("a".toList, Cell.str "3".toList), ("b".toList, Cell.str "4".toList)]]
      (some (dense [[("a".toList, Cell.str "1".toList), ("b".toList, Cell.str "2".toList)],
        [("a".toList, Cell.str "3".toList), ("b".toList, Cell.str "4".toList)]])) 0
      [("a".toList, Cell.str "1".toList), ("b".toList, Cell.str "2".toList)]
      "b".toList "x".toList (by decide) (by decide)).elim (fun _ h => h.2.2.1)⟩

/-- C8 fails as stated: loading `"a,b\n1"` and exporting gives `"a,b\n1,"`, with
an empty last field, not `"a,b\n1,undefined"`: `join` writes nothing for an
`undefined` element. -/
theorem C8_counterexample_empty_field :
    handleDownload (onload "a,b\n1".toList) = some "a,b\n1,".toList ∧
    handleDownload (onload "a,b\n1".toList) ≠ some "a,b\n1,undefined".toList := by
  decide

/-- C8 (as amended): take a document whose header names and printed row
values contain no line feed, and a row `i` of it whose printed values contain
no comma and which reads as `undefined` at the header of position `p`. Then
the export text has, in line `i + 1`, the empty field at field position `p`
(lines and fields being the pieces between line feeds and between commas). -/
theorem C8_export_missing_value (s : State) (rows : List Row) (i p : Nat) (row : Row)
    (header : Str) (hdata : s.data = some (dense rows)) (hrow : rows[i]? = some row)
    (hp : s.headers[p]? = some header) (hv : get row header = Value.undefined)
    (hcomma : ∀ h ∈ s.headers, ',' ∉ (get row h).joinText)
    (hfeed : ∀ h ∈ s.headers, '\n' ∉ h ∧ ∀ r ∈ rows, '\n' ∉ (get r h).joinText) :
    ∃ text line, handleDownload s = some text ∧
      (split '\n' text)[i + 1]? = some line ∧
      (split ',' line)[p]? = some [] := by
  have hne : s.headers ≠ [] := by
    intro e
    rw [e] at hp
    exact Option.noConfusion hp
  refine ⟨_, rowLine s.headers row, handleDownload_dense s rows hdata, ?_, ?_⟩
  · rw [split_export s.headers rows hfeed]
    simp only [List.getElem?_cons_succ, List.getElem?_map, hrow, Option.map_some']
  · rw [split_rowLine s.headers row hne hcomma, List.getElem?_map, hp]
    simp only [Option.map_some', hv, Value.joinText]

/-- C8 as amended, at the document loaded from `"a,b\n1"`, row 0 and the
header `b` of position 1. -/
theorem C8_export_missing_value_witness :
    (onload "a,b\n1".toList).data = some (dense [rowOf ["a".toList, "b".toList] "1".toList]) ∧
    (onload "a,b\n1".toList).headers[1]? = some "b".toList ∧
    get (rowOf ["a".toList, "b".toList] "1".toList) "b".toList = Value.undefined ∧
    (∃ text line, handleDownload (onload "a,b\n1".toList) = some text ∧
      (split '\n' text)[0 + 1]? = some line ∧ (split ',' line)[1]? = some []) :=
  ⟨by decide, by decide, by decide,
    C8_export_missing_value (onload "a,b\n1".toList) [rowOf ["a".toList, "b".toList] "1".toList]
      0 1 (rowOf ["a".toList, "b".toList] "1".toList) "b".toList
      (by decide) (by decide) (by decide) (by decide) (by decide) (by decide)⟩

/-- C9 fails on the code for a header named `__proto__`: parsing
`"__proto__,__proto__\n1,2"` gives a row object without any key, which maps the
header `__proto__` to `Object.prototype` and not to the field `2` of the last
column of that name. -/
theorem C9_duplicate_proto_header :
    (onload "__proto__,__proto__\n1,2".toList).headers
      = ["__proto__".toList, "__proto__".toList] ∧
    (onload "__proto__,__proto__\n1,2".toList).csvData = [Entry.row []] ∧
    get [] "__proto__".toList = Value.objectPrototype ∧
    get [] "__proto__".toList ≠ Value.str "2".toList ∧
    hasOwn [] "__proto__".toList = false := by
  decide

/-- C10 fails as stated: updating index 2 of the one-row list `[{a:"1"}]` gives
an array of length 3, the old row, a hole and the replacement row. -/
theorem C10_counterexample_array_grows :
    (updateRowMutation ⟨["a".toList], dense [[("a".toList, Cell.str "1".toList)]],
      some (dense [[("a".toList, Cell.str "1".toList)]])⟩ 2
      [("a".toList, Cell.str "9".toList)]).csvData
      = [Entry.row [("a".toList, Cell.str "1".toList)], Entry.hole,
          Entry.row [("a".toList, Cell.str "9".toList)]] ∧
    (updateRowMutation ⟨["a".toList], dense [[("a".toList, Cell.str "1".toList)]],
      some (dense [[("a".toList, Cell.str "1".toList)]])⟩ 2
      [("a".toList, Cell.str "9".toList)]).csvData
      ≠ dense [[("a".toList, Cell.str "1".toList)]] := by
  decide

/-- C10 (as amended): updating a row list of length `n` at an array index
`i ≥ n` grows the array to length `i + 1`: the `n` rows stay where they are,
the indices from `n` up to `i - 1` are holes and index `i` holds the
replacement row; the headers stay. -/
theorem C10_update_past_end (headers : List Str) (rows : List Row) (data : Option Rows)
    (i : Nat) (updatedRow : Row)
    (hi : rows.length ≤ i) (hidx : i < maxArrayLength) :
    (updateRowMutation ⟨headers, dense rows, data⟩ i updatedRow).csvData
      = dense rows ++ List.replicate (i - rows.length) Entry.hole ++ [Entry.row updatedRow] ∧
    (updateRowMutation ⟨headers, dense rows, data⟩ i updatedRow).csvData.length = i + 1 ∧
    (∀ j, j < rows.length →
      (updateRowMutation ⟨headers, dense rows, data⟩ i updatedRow).csvData[j]? = (dense rows)[j]?) ∧
    (∀ j, rows.length ≤ j → j < i →
      (updateRowMutation ⟨headers, dense rows, data⟩ i updatedRow).csvData[j]? = some Entry.hole) ∧
    (updateRowMutation ⟨headers, dense rows, data⟩ i updatedRow).csvData[i]?
      = some (Entry.row updatedRow) ∧
    (updateRowMutation ⟨headers, dense rows, data⟩ i updatedRow).headers = headers := by
  rw [updateRowMutation_dense_ge headers rows data i updatedRow hi hidx]
  refine ⟨rfl, ?_, ?_, ?_, ?_, rfl⟩
  · simp only [List.length_append, length_dense, List.length_replicate, List.length_singleton]
    omega
  · intro j hj
    rw [List.append_assoc, List.getElem?_append_left (by rw [length_dense]; exact hj)]
  · intro j hj hji
    rw [List.getElem?_append_left (by
      simp only [List.length_append, length_dense, List.length_replicate]
      omega)]
    rw [List.getElem?_append_right (by rw [length_dense]; exact hj), length_dense]
    rw [List.getElem?_replicate, if_pos (by omega)]
  · rw [List.getElem?_append_right (by
      simp only [List.length_append, length_dense, List.length_replicate]
      omega)]
    simp only [List.length_append, length_dense, List.length_replicate]
    have : i - (rows.length + (i - rows.length)) = 0 := by omega
    rw [this]
    rfl

/-- C10 as amended, updating index 2 of a one-row list. -/
theorem C10_update_past_end_witness :
    [[("a".toList, Cell.str "1".toList)]].length ≤ 2 ∧
    2 < maxArrayLength ∧
    (updateRowMutation ⟨["a".toList], dense [[("a".toList, Cell.str "1".toList)]],
      some (dense [[("a".toList, Cell.str "1".toList)]])⟩ 2
      [("a".toList, Cell.str "9".toList)]).csvData.length = 2 + 1 :=
  ⟨by decide, by decide,
    (C10_update_past_end ["a".toList] [[("a".toList, Cell.str "1".toList)]]
      (some (dense [[("a".toList, Cell.str "1".toList)]])) 2
      [("a".toList, Cell.str "9".toList)] (by decide) (by decide)).2.1⟩

end CsvMender
